import Mathlib

/-!
Verification development for PMDtools (`pmdtools.py`, Python 3 rewrite, v0.50).

Each definition below is a shallow embedding of a function or code block of
`pmdtools.py`; the source line numbers are given in the doc comments.
Python floats are modelled as real numbers, strings as `List Char`,
fallible indexing as `Option`.
-/

namespace PMDtools

/-- Embedding of `revcomp` (pmdtools.py lines 154-164): the per-character
complement table.  Characters outside `{A,T,G,C,N,-}` are dropped by the
source loop (no `else` branch), hence the `Option`. -/
def comp (inbase : Char) : Option Char :=
  if inbase = 'A' then some 'T'
  else if inbase = 'T' then some 'A'
  else if inbase = 'G' then some 'C'
  else if inbase = 'C' then some 'G'
  else if inbase = 'N' then some 'N'
  else if inbase = '-' then some '-'
  else none

/-- Embedding of `revcomp` (lines 154-164): reverse the input, then append the
complement of each character, silently skipping unknown characters. -/
def revcomp (inseq : List Char) : List Char :=
  inseq.reverse.filterMap comp

/-- Embedding of `phred2prob` (lines 167-168): `10.0 ** (-Q/10.0)`. -/
noncomputable def phred2prob (Q : ℝ) : ℝ := (10 : ℝ) ^ (-Q / 10)

/-- Embedding of `prob2phred` (lines 171-172): `-10.0*math.log(P,10)`. -/
noncomputable def prob2phred (P : ℝ) : ℝ := -10 * Real.logb 10 P

/-- Python `int()` truncation toward zero, as used in `int(prob2phred(...))`. -/
noncomputable def pyint (x : ℝ) : ℤ := if 0 ≤ x then ⌊x⌋ else ⌈x⌉

/-- Python `chr(n + 33)` as used for re-encoding a Phred quality character
(lines 486, 499, 509, 560, 587). -/
def chrAdd33 (n : ℤ) : Char := Char.ofNat (n + 33).toNat

/-- Embedding of `geometric` (lines 199-200):
`((1.0-pval)**(kval-1))*pval + constant`.  `kval` is always a positive integer
in the source (drawn from `range(1,1000)`), so the exponent is the natural
number `kval - 1`. -/
noncomputable def geometric (pval : ℝ) (kval : ℕ) (constant : ℝ) : ℝ :=
  (1 - pval) ^ (kval - 1) * pval + constant

/-- Embedding of `ancient_model_deam` (line 210): the fixed precomputed list
`[geometric(options.PMDpparam, l, options.PMDconstant) for l in range(1,1000)]`
— exactly 999 entries, indexed by distance `0..998`. -/
noncomputable def ancient_model_deam (p c : ℝ) : List ℝ :=
  (List.range' 1 999).map (fun l => geometric p l c)

/-- Embedding of `modern_model_deam` (lines 206-208): `['0.001']*1000`
converted to floats — 1000 entries, all `0.001`. -/
noncomputable def modern_model_deam : List ℝ :=
  List.replicate 1000 (0.001 : ℝ)

/-- Embedding of `L_match` (lines 175-180).  The source indexes
`fmodel[fposition]` and `fquals[fposition]`, which raises `IndexError` out of
range; this is modelled by returning `none`. -/
noncomputable def L_match (fposition : ℕ) (fmodel : List ℝ) (fquals : List Char)
    (fpoly : ℝ) : Option ℝ :=
  match fmodel[fposition]?, fquals[fposition]? with
  | some P_damage, some fq =>
    let P_error := phred2prob ((fq.toNat : ℝ) - 33) / 3
    let P_poly := fpoly
    some ((1 - P_damage) * (1 - P_error) * (1 - P_poly) +
      P_damage * P_error * (1 - P_poly) + P_error * P_poly * (1 - P_damage))
  | _, _ => none

/-- Embedding of `L_mismatch` (lines 183-189): `1.0 - P_match` with the same
`P_match` expression as `L_match`. -/
noncomputable def L_mismatch (fposition : ℕ) (fmodel : List ℝ) (fquals : List Char)
    (fpoly : ℝ) : Option ℝ :=
  match fmodel[fposition]?, fquals[fposition]? with
  | some P_damage, some fq =>
    let P_error := phred2prob ((fq.toNat : ℝ) - 33) / 3
    let P_match := (1 - P_damage) * (1 - P_error) * (1 - fpoly) +
      P_damage * P_error * (1 - fpoly) + P_error * fpoly * (1 - P_damage)
    some (1 - P_match)
  | _, _ => none

/-- Embedding of `Newbaseq` (lines 192-196): the combined error probability
`1.0 - ((1.0-P_damage) * (1.0-P_error))`. -/
noncomputable def Newbaseq (fposition : ℕ) (fmodel : List ℝ) (fquals : List Char) :
    Option ℝ :=
  match fmodel[fposition]?, fquals[fposition]? with
  | some P_damage, some fq =>
    let P_error := phred2prob ((fq.toNat : ℝ) - 33) / 3
    some (1 - (1 - P_damage) * (1 - P_error))
  | _, _ => none

/-! ### MD decoder (lines 340-361) -/

/-- Take the maximal prefix whose characters have digit-status `isdig`,
returning it together with the rest; helper for the `re.findall('(\d+|\D+)')`
tokenization of line 340. -/
def takeRun (isdig : Bool) : List Char → List Char × List Char
  | [] => ([], [])
  | c :: rest =>
    if c.isDigit = isdig then
      let p := takeRun isdig rest
      (c :: p.1, p.2)
    else ([], c :: rest)

/-- Fuel-driven worker for `mdTokens`. -/
def mdTokensF : ℕ → List Char → List (List Char)
  | 0, _ => []
  | _, [] => []
  | fuel + 1, c :: rest =>
    let p := takeRun c.isDigit rest
    (c :: p.1) :: mdTokensF fuel p.2

/-- Embedding of `MDlist = re.findall('(\d+|\D+)', MD)` (line 340): the MD
string split into maximal runs of digits and maximal runs of non-digits. -/
def mdTokens (s : List Char) : List (List Char) := mdTokensF s.length s

/-- Decimal value of a digit run, as `int(e)` (line 347). -/
def natOfDigits (l : List Char) : ℕ :=
  l.foldl (fun a c => 10 * a + (c.toNat - 48)) 0

/-- State of the MD-decoding loop of lines 343-361: the read cursor
`MDcounter`, the alignment trace `alignment` (`'.'` = exact match, a letter =
substituted reference base), and the first-pass `ref_seq` / `newread`. -/
structure MDState where
  MDcounter : ℕ
  alignment : List Char
  ref_seq : List Char
  newread : List Char
deriving DecidableEq, Repr

/-- One iteration of the `for e in MDlist` loop (lines 345-361).
* a digit run `e` (line 346-351) appends `'.'*int(e)` to the trace, copies
  `read[MDcounter:MDcounter+int(e)]` into `ref_seq`/`newread`, and advances
  the cursor;
* a run containing `'^'` (lines 353-355) appends `e.lstrip('^')` to the trace
  and nothing else — note the source DOES extend the trace here;
* a letter run (lines 357-361) appends it to the trace and `ref_seq`, appends
  the single character `read[MDcounter]` to `newread` (modelled with a `getD`
  default; the source raises out of range), and advances the cursor by the
  run length. -/
def mdStep (read : List Char) (st : MDState) (e : List Char) : MDState :=
  if e ≠ [] ∧ e.all Char.isDigit then
    let n := natOfDigits e
    { MDcounter := st.MDcounter + n
      alignment := st.alignment ++ List.replicate n '.'
      ref_seq := st.ref_seq ++ ((read.drop st.MDcounter).take n)
      newread := st.newread ++ ((read.drop st.MDcounter).take n) }
  else if '^' ∈ e then
    { st with alignment := st.alignment ++ e.dropWhile (fun c => c = '^') }
  else if e ≠ [] ∧ e.all Char.isAlpha then
    { MDcounter := st.MDcounter + e.length
      alignment := st.alignment ++ e
      ref_seq := st.ref_seq ++ e
      newread := st.newread ++ [read.getD st.MDcounter '?'] }
  else st

/-- Embedding of the whole MD-decoding loop (lines 343-361), starting from
`MDcounter=0` and empty strings (lines 331-332, 343-344). -/
def mdDecode (MD read : List Char) : MDState :=
  (mdTokens MD).foldl (mdStep read) ⟨0, [], [], []⟩

/-- Name errors present in this Python 3 source: `xrange` (line 386, a Python 2
builtin that does not exist in Python 3) and `prin` (line 294, a typo for
`print`).  Reaching either line raises an uncaught `NameError`. -/
inductive PyNameError where
  | xrange
  | prin
deriving DecidableEq, Repr

/-- Embedding of the reference-reconstruction block (lines 330-400): the MD
pass runs first; then, if the CIGAR contains an insertion or a soft-clip
(line 363), the source enters the per-coordinate redo loop whose `for`
statement (line 386) evaluates `xrange` — undefined in Python 3 — so the
whole block raises `NameError` (lines 364-385 before it only build local
lists and have no other effect).  Otherwise `ref_seq`/`newread` from the MD
pass stand. -/
def recreate_ref (cigar MD read : List Char) :
    Except PyNameError (List Char × List Char) :=
  let st := mdDecode MD read
  if 'I' ∈ cigar ∨ 'S' ∈ cigar then
    .error .xrange
  else
    .ok (st.ref_seq, st.newread)

/-- Embedding of the unsupported-CIGAR-operation check (lines 293-295):
`if 'H' in cigar or 'P' in cigar or 'N' in cigar:` — the branch calls the
undefined name `prin`, so instead of printing a diagnostic and skipping the
record it raises an uncaught `NameError`. -/
def unsupported_cigar_check (cigar : List Char) : Except PyNameError Unit :=
  if 'H' ∈ cigar ∨ 'P' ∈ cigar ∨ 'N' ∈ cigar then
    .error .prin
  else
    .ok ()

/-! ### Run-level exclusion counters and the stats summary (lines 237-244, 670-690) -/

/-- The run-level counters initialised at lines 237-244. -/
structure Counters where
  clipexcluded : ℕ
  indelexcluded : ℕ
  noMD : ℕ
  noGCexcluded : ℕ
  excluded_threshold : ℕ
  passed : ℕ
  noquals : ℕ
  maskings : ℕ
deriving DecidableEq, Repr

/-- Counter effect of the quality-string-shorter-than-2 skip (lines 270-272):
`noquals += 1; continue`. -/
def noqualsSkip (c : Counters) : Counters := { c with noquals := c.noquals + 1 }

/-- Counter effect of the missing-MD-tag skip (lines 334-338):
`noMD += 1; continue`. -/
def noMDSkip (c : Counters) : Counters := { c with noMD := c.noMD + 1 }

/-- Counter effect of the unsupported-CIGAR-operation branch (lines 293-295):
no counter is touched there (the branch only attempts to print and then
`continue`s — and the print itself is the `prin` NameError). -/
def unsupportedCigarSkip (c : Counters) : Counters := c

/-- Counter effect of the zero-length-overlap skip in the percent-identity
filter (lines 454-457): `except ZeroDivisionError: continue` — no counter is
touched. -/
def percIdentityZeroDivSkip (c : Counters) : Counters := c

/-- The counter values printed by the `--stats` summary (lines 670-690), in
order of appearance: clipping, indels, no MD field, no G or C in ref, total
seqs, excluded by threshold, passed seqs.  `noquals` and `maskings` do not
appear in the summary. -/
def statsReportValues (c : Counters) : List ℕ :=
  [c.clipexcluded, c.indelexcluded, c.noMD, c.noGCexcluded, c.passed,
    c.excluded_threshold, c.passed - c.excluded_threshold]

/-- Modelled from the spec (§4.5), for comparison with the source formula:
`P_mismatch = 1 - [(1-D)(1-E)(1-Q) + D·E·(1-Q) + E·Q·(1-D)]`. -/
noncomputable def spec_P_mismatch (D E Q : ℝ) : ℝ :=
  1 - ((1 - D) * (1 - E) * (1 - Q) + D * E * (1 - Q) + E * Q * (1 - D))

/-- Modelled from the spec (§4.5), for comparison with the source formula:
`E = 10^(-phred/10) / 3` (quality rescaled to per-alternative-base error). -/
noncomputable def spec_E (phred : ℝ) : ℝ := (10 : ℝ) ^ (-phred / 10) / 3

/-! ### Score-threshold output filter (lines 631-636) -/

/-- Embedding of the threshold output block (lines 631-636).  Score and
thresholds are modelled as rationals (only comparisons matter).  Returns
whether the line is printed and the updated `excluded_threshold` counter;
`none` when the guard `threshold > -10000 or upperthreshold < 1000000` is
false and the block is skipped entirely. -/
def thresholdBlock (threshold upperthreshold LR : ℚ) (excluded_threshold : ℕ) :
    Option (Bool × ℕ) :=
  if threshold > -10000 ∨ upperthreshold < 1000000 then
    if LR ≥ threshold ∧ LR < upperthreshold then
      some (true, excluded_threshold)
    else
      some (false, excluded_threshold + 1)
  else none

/-! ### The per-record scoring loop (lines 469-599)

The loop `for a,b,x in zip(real_read, real_ref_seq, range(0,len(real_ref_seq)))`
is embedded as a fuel-indexed recursion over the position `x`; `continue` is a
recursive call at `x+1` and `break` stops the recursion.  The
`options.deamination` branch (lines 513-541), which only updates the
substitution-count dictionaries and then `continue`s past the scoring block,
is not modelled: the theorems below describe runs with `--deamination` off.
Python's fallible string indexing is modelled with `getD`; the theorems carry
the length hypotheses (`len(quals) = len(real_read)`) that hold for the SAM
records the source can process without raising. -/

/-- The configuration a single record is scored under: the reconstructed
read/reference (`real_read`, `real_ref_seq`, lines 406-407), the original read
length `readlen` (line 264), the options `--CpG`, `--adjustbaseq`,
`--adjustbaseq_all`, `--requirebaseq`, the two damage models (lines
206-213) as lookup functions, and the two polymorphism priors. -/
structure ScoreCfg where
  real_read : List Char
  real_ref_seq : List Char
  readlen : ℕ
  cpg : Bool
  adjustbaseq : Bool
  adjustbaseq_all : Bool
  baseq : ℤ
  ancient_model : ℕ → ℝ
  modern_model : ℕ → ℝ
  adjustment_model : ℕ → ℝ
  polymorphism_ancient : ℝ
  polymorphism_contamination : ℝ

/-- The loop-carried state: the two likelihood accumulators `L_D`, `L_M`
(line 469-470), the quality string `quals` that the likelihood engine reads,
and the output copy `newquals` (line 472). -/
structure ScoreState where
  L_D : ℝ
  L_M : ℝ
  quals : List Char
  newquals : List Char

/-- Python `quals[0:i] + newqual + quals[(i+1):]` (lines 487, 500, 510, 561,
588): replace the character at index `i`. -/
def splice (q : List Char) (i : ℕ) (c : Char) : List Char :=
  q.take i ++ c :: q.drop (i + 1)

/-- `ord(quals[i])` with `getD` in place of the raising index. -/
def ordAt (q : List Char) (i : ℕ) : ℕ := (q.getD i '?').toNat

/-- `phred2prob((ord(fquals[fposition])-33))/3.0` — the per-alternative-base
error probability read inside `L_match`/`L_mismatch`/`Newbaseq`
(lines 177, 185, 194). -/
noncomputable def P_error_of (q : List Char) (i : ℕ) : ℝ :=
  phred2prob ((ordAt q i : ℝ) - 33) / 3

/-- The `P_match` expression of `L_match` (line 179) over already-looked-up
probabilities. -/
noncomputable def L_matchP (P_damage P_error P_poly : ℝ) : ℝ :=
  (1 - P_damage) * (1 - P_error) * (1 - P_poly) +
    P_damage * P_error * (1 - P_poly) + P_error * P_poly * (1 - P_damage)

/-- The `P_mismatch = 1.0 - P_match` expression of `L_mismatch` (line 188). -/
noncomputable def L_mismatchP (P_damage P_error P_poly : ℝ) : ℝ :=
  1 - L_matchP P_damage P_error P_poly

/-- The `NewErrorP` expression of `Newbaseq` (line 195). -/
noncomputable def NewbaseqP (P_damage P_error : ℝ) : ℝ :=
  1 - (1 - P_damage) * (1 - P_error)

/-- The adjusted quality character
`chr(int(prob2phred(Newbaseq(pos, model, q))) + 33)`
(lines 497-499, 507-509, 558-560, 584-587). -/
noncomputable def newqualAt (model : ℕ → ℝ) (q : List Char) (i : ℕ) : Char :=
  chrAdd33 (pyint (prob2phred (NewbaseqP (model i) (P_error_of q i))))

/-- The `--adjustbaseq_all` quality character (lines 483-486):
`newprob = adjustment_model_deam[i] + adjustment_model_deam[z] +
phred2prob(ord(quals[i])-33)` (note: no `/3` here), then
`chr(int(prob2phred(newprob)) + 33)`. -/
noncomputable def adjAllQual (adjustment : ℕ → ℝ) (q : List Char) (i z : ℕ) : Char :=
  chrAdd33 (pyint (prob2phred
    (adjustment i + adjustment z + phred2prob ((ordAt q i : ℝ) - 33))))

/-- The below-quality-threshold branch (lines 489-511): when `--adjustbaseq`
is set, a C→T (or G→A) mismatch still gets its quality adjusted — written to
`newquals` only — with the CpG guards of lines 493-495 and 503-505 (`break`
when `i+1 >= readlen`, `continue` when the context base does not match);
in every non-break case the iteration ends in the `continue` of line 511.
Returns the new state and whether the loop `break`s. -/
noncomputable def belowBranch (cfg : ScoreCfg) (x z : ℕ) (qualsrev : List Char)
    (st : ScoreState) : ScoreState × Bool :=
  if cfg.adjustbaseq then
    if cfg.real_ref_seq.getD x '?' = 'C' ∧ cfg.real_read.getD x '?' = 'T' then
      if cfg.cpg ∧ cfg.readlen ≤ x + 1 then (st, true)
      else if cfg.cpg ∧ cfg.real_read.getD (x + 1) '?' ≠ 'G' then (st, false)
      else ({ st with newquals := splice st.quals x (newqualAt cfg.ancient_model st.quals x) },
        false)
    else if cfg.real_ref_seq.getD x '?' = 'G' ∧ cfg.real_read.getD x '?' = 'A' then
      if cfg.cpg ∧ cfg.readlen ≤ x + 1 then (st, true)
      else if cfg.cpg ∧ cfg.real_read.reverse.getD (x + 1) '?' ≠ 'C' then (st, false)
      else ({ st with newquals := splice st.quals x (newqualAt cfg.ancient_model qualsrev z) },
        false)
    else (st, false)
  else (st, false)

/-- The `b == 'C'` scoring block (lines 549-573): CpG guards (lines 551-552),
then a C→T mismatch multiplies both likelihoods by `L_mismatch` at distance
`i` (lines 554-555) and — when `--adjustbaseq` is set — writes the adjusted
quality character INTO `quals` itself (line 561, not `newquals`); a C→C match
multiplies both likelihoods by `L_match` (lines 572-573). -/
noncomputable def scoreC (cfg : ScoreCfg) (x : ℕ) (st : ScoreState) :
    ScoreState × Bool :=
  if cfg.cpg ∧ cfg.readlen ≤ x + 1 then (st, true)
  else if cfg.cpg ∧ cfg.real_read.getD (x + 1) '?' ≠ 'G' then (st, false)
  else if cfg.real_read.getD x '?' = 'T' then
    let st1 : ScoreState :=
      { st with
        L_D := st.L_D * L_mismatchP (cfg.ancient_model x) (P_error_of st.quals x)
          cfg.polymorphism_ancient
        L_M := st.L_M * L_mismatchP (cfg.modern_model x) (P_error_of st.quals x)
          cfg.polymorphism_contamination }
    if cfg.adjustbaseq then
      ({ st1 with quals := splice st1.quals x (newqualAt cfg.ancient_model st1.quals x) },
        false)
    else (st1, false)
  else if cfg.real_read.getD x '?' = 'C' then
    ({ st with
      L_D := st.L_D * L_matchP (cfg.ancient_model x) (P_error_of st.quals x)
        cfg.polymorphism_ancient
      L_M := st.L_M * L_matchP (cfg.modern_model x) (P_error_of st.quals x)
        cfg.polymorphism_contamination }, false)
  else (st, false)

/-- The `b == 'G'` scoring block (lines 575-593): CpG guards on the reversed
read (lines 577-578), then a G→A mismatch multiplies both likelihoods by
`L_mismatch` at the 3-prime distance `z` over the reversed quality string
(lines 580-581) and — when `--adjustbaseq` is set — writes the adjusted
quality to `newquals` (line 588); a G→G match multiplies by `L_match` at `z`
(lines 592-593). -/
noncomputable def scoreG (cfg : ScoreCfg) (x z : ℕ) (qualsrev : List Char)
    (st : ScoreState) : ScoreState × Bool :=
  if cfg.cpg ∧ cfg.readlen ≤ x + 1 then (st, true)
  else if cfg.cpg ∧ cfg.real_read.reverse.getD (x + 1) '?' ≠ 'C' then (st, false)
  else if cfg.real_read.getD x '?' = 'A' then
    let st1 : ScoreState :=
      { st with
        L_D := st.L_D * L_mismatchP (cfg.ancient_model z) (P_error_of qualsrev z)
          cfg.polymorphism_ancient
        L_M := st.L_M * L_mismatchP (cfg.modern_model z) (P_error_of qualsrev z)
          cfg.polymorphism_contamination }
    if cfg.adjustbaseq then
      ({ st1 with newquals := splice st1.quals x (newqualAt cfg.ancient_model qualsrev z) },
        false)
    else (st1, false)
  else if cfg.real_read.getD x '?' = 'G' then
    ({ st with
      L_D := st.L_D * L_matchP (cfg.ancient_model z) (P_error_of qualsrev z)
        cfg.polymorphism_ancient
      L_M := st.L_M * L_matchP (cfg.modern_model z) (P_error_of qualsrev z)
        cfg.polymorphism_contamination }, false)
  else (st, false)

/-- The `--adjustbaseq_all` update (lines 482-487): writes the recomputed
quality character into `newquals` only. -/
noncomputable def adjAllStep (cfg : ScoreCfg) (x z : ℕ) (st : ScoreState) :
    ScoreState :=
  if cfg.adjustbaseq_all then
    { st with newquals := splice st.quals x (adjAllQual cfg.adjustment_model st.quals x z) }
  else st

/-- One iteration of the scoring loop at position `x` (lines 475-596, with the
`--deamination` branch disabled): skip `N` positions (line 476), `break` when
`i >= readlen` (line 480), optionally write the `--adjustbaseq_all` quality
into `newquals` (lines 482-487), take the below-threshold branch (lines
489-511) or the scoring blocks (lines 547-593, including the dead re-check of
line 548).  Returns the new state and whether the loop `break`s. -/
noncomputable def stepScore (cfg : ScoreCfg) (x : ℕ) (st : ScoreState) :
    ScoreState × Bool :=
  let a := cfg.real_read.getD x '?'
  let b := cfg.real_ref_seq.getD x '?'
  if a = 'N' ∨ b = 'N' then (st, false)
  else
    let z := cfg.real_read.length - 1 - x
    let qualsrev := st.quals.reverse
    if cfg.readlen ≤ x then (st, true)
    else
      let st1 := adjAllStep cfg x z st
      if (ordAt st1.quals x : ℤ) - 33 < cfg.baseq then belowBranch cfg x z qualsrev st1
      else if cfg.readlen ≤ x then (st1, false)
      else if b = 'C' then scoreC cfg x st1
      else if b = 'G' then scoreG cfg x z qualsrev st1
      else (st1, false)

/-- Fuel-indexed driver of the scoring loop: the source iterates `x` over
`range(0, len(real_ref_seq))`, truncated by `zip` to
`min (len real_read) (len real_ref_seq)`. -/
noncomputable def goScore (cfg : ScoreCfg) : ℕ → ℕ → ScoreState → ScoreState
  | 0, _, st => st
  | fuel + 1, x, st =>
    if x < min cfg.real_read.length cfg.real_ref_seq.length then
      match stepScore cfg x st with
      | (st1, false) => goScore cfg fuel (x + 1) st1
      | (st1, true) => st1
    else st

/-- The whole scoring loop of one record, from the initial state
`L_D = L_M = 1.0`, `newquals = quals` (lines 469-472). -/
noncomputable def scoreRun (cfg : ScoreCfg) (quals0 : List Char) : ScoreState :=
  goScore cfg (min cfg.real_read.length cfg.real_ref_seq.length) 0
    ⟨1, 1, quals0, quals0⟩

/-- The PMD score `LR = math.log(L_D/L_M)` (line 598). -/
noncomputable def PMDscore (st : ScoreState) : ℝ := Real.log (st.L_D / st.L_M)

/-- The per-position likelihood factor contributed to `L_D` (and, with the
modern model and contaminant prior, to `L_M`), expressed as a pure function
of the record and the ORIGINAL quality string `q0`: positions that are
skipped, below the quality threshold, out of CpG context, past `readlen`, or
not a scorable reference C/G contribute the neutral factor 1.  Used to state
that the loop's accumulators are plain products. -/
noncomputable def pureFactor (rr rs q0 : List Char) (readlen : ℕ) (cpg : Bool)
    (baseq : ℤ) (model : ℕ → ℝ) (poly : ℝ) (x : ℕ) : ℝ :=
  let a := rr.getD x '?'
  let b := rs.getD x '?'
  if a = 'N' ∨ b = 'N' then 1
  else if readlen ≤ x then 1
  else if (ordAt q0 x : ℤ) - 33 < baseq then 1
  else if b = 'C' then
    if cpg ∧ readlen ≤ x + 1 then 1
    else if cpg ∧ rr.getD (x + 1) '?' ≠ 'G' then 1
    else if a = 'T' then L_mismatchP (model x) (P_error_of q0 x) poly
    else if a = 'C' then L_matchP (model x) (P_error_of q0 x) poly
    else 1
  else if b = 'G' then
    if cpg ∧ readlen ≤ x + 1 then 1
    else if cpg ∧ rr.reverse.getD (x + 1) '?' ≠ 'C' then 1
    else if a = 'A' then L_mismatchP (model (rr.length - 1 - x)) (P_error_of q0 x) poly
    else if a = 'G' then L_matchP (model (rr.length - 1 - x)) (P_error_of q0 x) poly
    else 1
  else 1

/-- Product of `f` over positions `x, x+1, ...` while below `n`, with at most
`fuel` factors. -/
noncomputable def prodFrom (n : ℕ) (f : ℕ → ℝ) : ℕ → ℕ → ℝ
  | 0, _ => 1
  | fuel + 1, x => if x < n then f x * prodFrom n f fuel (x + 1) else 1

/-- `pureFactor` specialised to the ancient model and ancient prior: the
factor a position contributes to `L_D`. -/
noncomputable def factorD (cfg : ScoreCfg) (q0 : List Char) : ℕ → ℝ :=
  pureFactor cfg.real_read cfg.real_ref_seq q0 cfg.readlen cfg.cpg cfg.baseq
    cfg.ancient_model cfg.polymorphism_ancient

/-- `pureFactor` specialised to the modern model and contaminant prior: the
factor a position contributes to `L_M`. -/
noncomputable def factorM (cfg : ScoreCfg) (q0 : List Char) : ℕ → ℝ :=
  pureFactor cfg.real_read cfg.real_ref_seq q0 cfg.readlen cfg.cpg cfg.baseq
    cfg.modern_model cfg.polymorphism_contamination

/-- A position at which a reference C or G passes the scoring filters of the
claim (quality, N, CpG): the reference base is C (resp. G), neither base is
`N`, the position is inside the read, its quality clears `--requirebaseq`,
and — under `--CpG` — the 3-prime (resp. 5-prime) context base matches. -/
def scorableCG (rr rs q0 : List Char) (readlen : ℕ) (cpg : Bool) (baseq : ℤ)
    (x : ℕ) : Prop :=
  (rr.getD x '?' ≠ 'N' ∧ rs.getD x '?' ≠ 'N') ∧
  x < readlen ∧
  baseq ≤ (ordAt q0 x : ℤ) - 33 ∧
  ((rs.getD x '?' = 'C' ∧ (cpg → x + 1 < readlen ∧ rr.getD (x + 1) '?' = 'G')) ∨
   (rs.getD x '?' = 'G' ∧ (cpg → x + 1 < readlen ∧ rr.reverse.getD (x + 1) '?' = 'C')))

instance (rr rs q0 : List Char) (readlen : ℕ) (cpg : Bool) (baseq : ℤ) (x : ℕ) :
    Decidable (scorableCG rr rs q0 readlen cpg baseq x) := by
  unfold scorableCG
  infer_instance

/-- A concrete one-base record for exercising the scoring loop: read `T`
against reference `C` (a C→T mismatch at distance 0), `--adjustbaseq` on,
CpG off, base-quality threshold 0, default damage parameters. -/
noncomputable def c4cfg : ScoreCfg :=
  { real_read := ['T']
    real_ref_seq := ['C']
    readlen := 1
    cpg := false
    adjustbaseq := true
    adjustbaseq_all := false
    baseq := 0
    ancient_model := fun k => geometric 0.3 (k + 1) 0.01
    modern_model := fun _ => 0.001
    adjustment_model := fun k => geometric 0.3 (k + 1) 0
    polymorphism_ancient := 0.001
    polymorphism_contamination := 0.001 }

/-- A concrete two-base record with no C or G in the reference (read `AA`,
reference `AA`): no position is scorable. -/
noncomputable def c5cfg : ScoreCfg :=
  { real_read := ['A', 'A']
    real_ref_seq := ['A', 'A']
    readlen := 2
    cpg := false
    adjustbaseq := false
    adjustbaseq_all := false
    baseq := 0
    ancient_model := fun k => geometric 0.3 (k + 1) 0.01
    modern_model := fun _ => 0.001
    adjustment_model := fun k => geometric 0.3 (k + 1) 0
    polymorphism_ancient := 0.001
    polymorphism_contamination := 0.001 }

/-! ## Theorems -/

/-- `revcomp` distributes over append, reversing the order of the parts. -/
theorem revcomp_append (u v : List Char) : revcomp (u ++ v) = revcomp v ++ revcomp u := by
  simp [revcomp, List.reverse_append, List.filterMap_append]

/-- Unfolding `revcomp` on a cons cell through `revcomp_append`. -/
theorem revcomp_cons (c : Char) (t : List Char) :
    revcomp (c :: t) = revcomp t ++ revcomp [c] := by
  have h : c :: t = [c] ++ t := rfl
  rw [h, revcomp_append]

/-- C1 — the claim says a deletion run (leading `^`) emits nothing into the
read-aligned alignment trace; the source (lines 353-355) instead appends the
stripped deletion bases to the trace.  On MD `5^AC5` over a 12-base read the
decoded trace is `.....AC.....` (12 characters, containing the deleted
reference bases `A`,`C`), although the MD string covers only 10 match-region
read coordinates (`MDcounter = 10`); the read cursor is indeed not advanced
by the deletion.  The trace is consumed per match-region coordinate by the
reconstructor (lines 395-400), which these extra characters misalign. -/
theorem c1_md_deletion_emitted_into_trace :
    (mdDecode "5^AC5".toList "ACGTACGTACGT".toList).alignment = ".....AC.....".toList ∧
    (mdDecode "5^AC5".toList "ACGTACGTACGT".toList).MDcounter = 10 ∧
    (mdDecode "5^AC5".toList "ACGTACGTACGT".toList).alignment.length ≠
      (mdDecode "5^AC5".toList "ACGTACGTACGT".toList).MDcounter := by
  decide

/-- C2 — the claim says a record whose CIGAR contains an insertion or
soft-clip is reconstructed into two equal-length arrays (e.g. `10S66M` gives
10 leading gaps).  In this Python 3 source the reconstruction branch's loop
header (line 386) evaluates `xrange`, which is undefined in Python 3, so any
record entering the branch raises an uncaught `NameError` instead: here
evaluated at CIGAR `10S66M`, MD `66`, a 76-base read. -/
theorem c2_soft_clip_reconstruction_crashes_on_xrange :
    recreate_ref "10S66M".toList "66".toList (List.replicate 76 'A') =
      .error .xrange := by
  unfold recreate_ref
  rw [if_pos (by decide)]

/-- C3 — per-base mismatch probability under a damage model equals
`1 - [(1-D)(1-E)(1-Q) + D·E·(1-Q) + E·Q·(1-D)]` with `E = 10^(-phred/10)/3`,
and the match probability is one minus the mismatch probability
(`L_match`/`L_mismatch`, lines 175-189). -/
theorem c3_likelihood_formulas (fposition : ℕ) (fmodel : List ℝ)
    (fquals : List Char) (fpoly : ℝ)
    (hm : fposition < fmodel.length) (hq : fposition < fquals.length) :
    L_mismatch fposition fmodel fquals fpoly =
      some (spec_P_mismatch (fmodel.getD fposition 0)
        (spec_E (((fquals.getD fposition '?').toNat : ℝ) - 33)) fpoly) ∧
    L_match fposition fmodel fquals fpoly =
      some (1 - spec_P_mismatch (fmodel.getD fposition 0)
        (spec_E (((fquals.getD fposition '?').toNat : ℝ) - 33)) fpoly) := by
  rw [List.getD_eq_getElem _ _ hm, List.getD_eq_getElem _ _ hq]
  unfold L_mismatch L_match
  rw [List.getElem?_eq_getElem hm, List.getElem?_eq_getElem hq]
  constructor
  · simp only [Option.some.injEq, spec_P_mismatch, spec_E, phred2prob]
  · simp only [Option.some.injEq, spec_P_mismatch, spec_E, phred2prob]
    ring

/-- C3 witness: the formula theorem applied at position 0, model `[0.31]`,
quality character `I`, prior `0.001`. -/
theorem c3_likelihood_formulas_witness :
    ((0 < 1 ∧ 0 < 1) ∧
      (L_mismatch 0 [(0.31 : ℝ)] ['I'] 0.001 =
        some (spec_P_mismatch (([(0.31 : ℝ)]).getD 0 0)
          (spec_E ((((['I']).getD 0 '?').toNat : ℝ) - 33)) 0.001) ∧
      L_match 0 [(0.31 : ℝ)] ['I'] 0.001 =
        some (1 - spec_P_mismatch (([(0.31 : ℝ)]).getD 0 0)
          (spec_E ((((['I']).getD 0 '?').toNat : ℝ) - 33)) 0.001))) :=
  ⟨⟨Nat.zero_lt_one, Nat.zero_lt_one⟩,
    c3_likelihood_formulas 0 [(0.31 : ℝ)] ['I'] 0.001 (by decide) (by decide)⟩

/-- C6 — reverse-complementing twice is the identity on strings over the
alphabet `{A,C,G,T,N,-}` (`revcomp`, lines 154-164). -/
theorem c6_revcomp_involution (s : List Char)
    (h : ∀ c ∈ s, c ∈ ['A', 'C', 'G', 'T', 'N', '-']) :
    revcomp (revcomp s) = s := by
  induction s with
  | nil => rfl
  | cons c t ih =>
    have hc : c ∈ ['A', 'C', 'G', 'T', 'N', '-'] := h c (List.mem_cons_self c t)
    have ht : ∀ a ∈ t, a ∈ ['A', 'C', 'G', 'T', 'N', '-'] :=
      fun a ha => h a (List.mem_cons_of_mem c ha)
    have hcc : revcomp (revcomp [c]) = [c] := by fin_cases hc <;> rfl
    calc revcomp (revcomp (c :: t))
        = revcomp (revcomp t ++ revcomp [c]) := by rw [revcomp_cons]
      _ = revcomp (revcomp [c]) ++ revcomp (revcomp t) := revcomp_append _ _
      _ = [c] ++ t := by rw [hcc, ih ht]
      _ = c :: t := rfl

/-- C6 witness: the involution applied to the concrete string `ACGTN-`. -/
theorem c6_revcomp_involution_witness :
    (∀ c ∈ "ACGTN-".toList, c ∈ ['A', 'C', 'G', 'T', 'N', '-']) ∧
      revcomp (revcomp "ACGTN-".toList) = "ACGTN-".toList :=
  ⟨by decide, c6_revcomp_involution "ACGTN-".toList (by decide)⟩

/-- C7 — the claim says a record with an unsupported CIGAR operation (H, N or
P) is rejected with a diagnostic and the stream continues.  The diagnostic
branch (lines 293-295) calls the undefined name `prin` (a typo for `print`),
so the record instead raises an uncaught `NameError`, aborting the run: here
evaluated at CIGAR `5H71M`. -/
theorem c7_unsupported_cigar_crashes_on_prin :
    unsupported_cigar_check "5H71M".toList = .error .prin := by
  unfold unsupported_cigar_check
  rw [if_pos (by decide)]

/-- C8 — in score-filtering output mode (lower threshold above `-10000` or
upper threshold below `1000000`, lines 631-636), the record line is printed
iff `threshold ≤ LR < upperthreshold`, and otherwise it is withheld with the
`excluded_threshold` counter incremented. -/
theorem c8_threshold_interval (threshold upperthreshold LR : ℚ) (k : ℕ)
    (hmode : threshold > -10000 ∨ upperthreshold < 1000000) :
    (thresholdBlock threshold upperthreshold LR k = some (true, k) ↔
      (threshold ≤ LR ∧ LR < upperthreshold)) ∧
    (thresholdBlock threshold upperthreshold LR k = some (false, k + 1) ↔
      ¬(threshold ≤ LR ∧ LR < upperthreshold)) := by
  unfold thresholdBlock
  rw [if_pos hmode]
  by_cases hin : LR ≥ threshold ∧ LR < upperthreshold
  · rw [if_pos hin]
    simp [hin.1, hin.2]
  · rw [if_neg hin]
    have hin2 : ¬(threshold ≤ LR ∧ LR < upperthreshold) := hin
    simp [hin2]

/-- C8 witness: the interval characterisation applied at thresholds `3` and
`1000000`, score `5`, counter `0`. -/
theorem c8_threshold_interval_witness :
    ((3 : ℚ) > -10000 ∨ (1000000 : ℚ) < 1000000) ∧
    ((thresholdBlock 3 1000000 5 0 = some (true, 0) ↔
      ((3 : ℚ) ≤ 5 ∧ (5 : ℚ) < 1000000)) ∧
    (thresholdBlock 3 1000000 5 0 = some (false, 0 + 1) ↔
      ¬((3 : ℚ) ≤ 5 ∧ (5 : ℚ) < 1000000))) :=
  ⟨by decide, c8_threshold_interval 3 1000000 5 0 (by decide)⟩

/-- C9 — the claim says the damage model is defined at every in-read distance
for every read length.  The source model (line 210) is the fixed 999-entry
list `[geometric(p,l,C) for l in range(1,1000)]`, so for a 1000-base read the
position at distance 999 fails to look up (`IndexError`, modelled as `none`):
the claim fails. -/
theorem c9_model_lookup_fails_at_999 :
    L_mismatch 999 (ancient_model_deam 0.3 0.01) (List.replicate 1000 'I') 0.001 =
      none := by
  have hlen : (ancient_model_deam 0.3 0.01).length = 999 := by
    simp only [ancient_model_deam, List.length_map, List.length_range']
  have h1 : (ancient_model_deam 0.3 0.01)[999]? = none :=
    List.getElem?_eq_none (by rw [hlen])
  have hr : (999 : ℕ) < (List.replicate 1000 'I').length := by
    rw [List.length_replicate]
    omega
  have h2 : (List.replicate 1000 'I')[999]? = some 'I' := by
    rw [List.getElem?_eq_getElem hr, List.getElem_replicate]
  unfold L_mismatch
  rw [h1, h2]

/-- C9 amended: the damage models are defined at every distance BELOW their
fixed caps — `ancient_model_deam` holds `geometric p (i+1) C` for every
distance `i < 999`, and `modern_model_deam` holds `0.001` at every
`i < 1000`; beyond the caps the lookup fails. -/
theorem c9_model_defined_below_cap (p c : ℝ) (i : ℕ) (h : i < 999) :
    (ancient_model_deam p c)[i]? = some (geometric p (i + 1) c) ∧
    modern_model_deam[i]? = some (0.001 : ℝ) := by
  constructor
  · have hl : i < (ancient_model_deam p c).length := by
      simp only [ancient_model_deam, List.length_map, List.length_range']
      omega
    rw [List.getElem?_eq_getElem hl]
    simp only [ancient_model_deam, List.getElem_map, List.getElem_range',
      Option.some.injEq]
    have harg : 1 + 1 * i = i + 1 := by omega
    rw [harg]
  · have hl : i < modern_model_deam.length := by
      simp only [modern_model_deam, List.length_replicate]
      omega
    rw [List.getElem?_eq_getElem hl]
    simp only [modern_model_deam, List.getElem_replicate]

/-- C9 witness: the amended definedness theorem applied at distance 0 with the
default parameters. -/
theorem c9_model_defined_below_cap_witness :
    0 < 999 ∧
    ((ancient_model_deam 0.3 0.01)[0]? = some (geometric 0.3 (0 + 1) 0.01) ∧
      modern_model_deam[0]? = some (0.001 : ℝ)) :=
  ⟨by decide, c9_model_defined_below_cap 0.3 0.01 0 (by decide)⟩

/-- C10 — the claim says every recoverable skip increments its own dedicated
counter and every such counter is reported in the summary.  Concretely false:
the zero-length-overlap skip (lines 454-457) and the unsupported-CIGAR branch
(lines 293-295) leave the counters unchanged, and the `--stats` summary
(lines 670-690) is identical for two counter states differing only in
`noquals`, so the short-quality-string counter is never reported. -/
theorem c10_skips_without_counters_counterexample :
    percIdentityZeroDivSkip ⟨0, 0, 0, 0, 0, 0, 0, 0⟩ = ⟨0, 0, 0, 0, 0, 0, 0, 0⟩ ∧
    unsupportedCigarSkip ⟨1, 1, 1, 1, 1, 1, 1, 1⟩ = ⟨1, 1, 1, 1, 1, 1, 1, 1⟩ ∧
    statsReportValues ⟨1, 2, 3, 4, 5, 6, 7, 8⟩ =
      statsReportValues ⟨1, 2, 3, 4, 5, 6, 0, 8⟩ := by
  decide

/-- C10 amended: the missing-MD skip increments `noMD`, which the summary
reports (third value); the short-quality-string skip increments `noquals`,
which the summary does not report (the summary is independent of it); the
unsupported-CIGAR and zero-length-overlap skips increment no counter at
all. -/
theorem c10_counter_accounting (c : Counters) (n : ℕ) :
    noMDSkip c = { c with noMD := c.noMD + 1 } ∧
    (statsReportValues c).getD 2 0 = c.noMD ∧
    noqualsSkip c = { c with noquals := c.noquals + 1 } ∧
    statsReportValues { c with noquals := n } = statsReportValues c ∧
    unsupportedCigarSkip c = c ∧
    percIdentityZeroDivSkip c = c :=
  ⟨rfl, rfl, rfl, rfl, rfl, rfl⟩

/-! ### Invariants of the scoring loop -/

/-- Replacing one in-range character preserves the length. -/
theorem splice_length (q : List Char) (i : ℕ) (c : Char) (h : i < q.length) :
    (splice q i c).length = q.length := by
  simp only [splice, List.length_append, List.length_take, List.length_cons,
    List.length_drop]
  omega

/-- Replacing the character at `i` leaves every position after `i` unchanged. -/
theorem splice_getD_of_lt (q : List Char) (i : ℕ) (c : Char) (j : ℕ)
    (hij : i < j) (hi : i < q.length) :
    (splice q i c).getD j '?' = q.getD j '?' := by
  unfold splice
  rw [List.getD_eq_getElem?_getD, List.getD_eq_getElem?_getD]
  have hlen : (q.take i).length = i := by
    rw [List.length_take]
    omega
  rw [List.getElem?_append_right (by rw [hlen]; omega), hlen]
  have hji : j - i = (j - i - 1) + 1 := by omega
  rw [hji, List.getElem?_cons_succ, List.getElem?_drop]
  have hidx : i + 1 + (j - i - 1) = j := by omega
  rw [hidx]

/-- Reading the reversed list at the mirrored index. -/
theorem getD_reverse_last (q : List Char) (x : ℕ) (hx : x < q.length) :
    q.reverse.getD (q.length - 1 - x) '?' = q.getD x '?' := by
  have h1 : q.length - 1 - x < q.length := by omega
  have h2 : q.length - 1 - (q.length - 1 - x) = x := by omega
  rw [List.getD_eq_getElem?_getD, List.getD_eq_getElem?_getD,
    List.getElem?_reverse h1, h2]

/-- `P_error_of` reads only the character at its own position. -/
theorem P_error_of_congr (q q0 : List Char) (i : ℕ)
    (h : q.getD i '?' = q0.getD i '?') : P_error_of q i = P_error_of q0 i := by
  unfold P_error_of ordAt
  rw [h]

/-- The `--adjustbaseq_all` update touches only `newquals`. -/
theorem adjAllStep_fields (cfg : ScoreCfg) (x z : ℕ) (st : ScoreState) :
    (adjAllStep cfg x z st).L_D = st.L_D ∧
    (adjAllStep cfg x z st).L_M = st.L_M ∧
    (adjAllStep cfg x z st).quals = st.quals := by
  unfold adjAllStep
  split_ifs <;> exact ⟨rfl, rfl, rfl⟩

/-- The below-threshold branch touches only `newquals`. -/
theorem belowBranch_fields (cfg : ScoreCfg) (x z : ℕ) (qualsrev : List Char)
    (st : ScoreState) :
    (belowBranch cfg x z qualsrev st).1.L_D = st.L_D ∧
    (belowBranch cfg x z qualsrev st).1.L_M = st.L_M ∧
    (belowBranch cfg x z qualsrev st).1.quals = st.quals := by
  unfold belowBranch
  split_ifs <;> exact ⟨rfl, rfl, rfl⟩

/-- The below-threshold branch `break`s only when `readlen ≤ x + 1`
(lines 494 and 504). -/
theorem belowBranch_break (cfg : ScoreCfg) (x z : ℕ) (qualsrev : List Char)
    (st : ScoreState) (h : (belowBranch cfg x z qualsrev st).2 = true) :
    cfg.readlen ≤ x + 1 := by
  unfold belowBranch at h
  split_ifs at h with h1 h2 h3 h4 h5 h6 h7 <;> simp_all

/-- Past `readlen` every pure factor is neutral. -/
theorem pureFactor_eq_one_of_readlen (rr rs q0 : List Char) (readlen : ℕ)
    (cpg : Bool) (baseq : ℤ) (model : ℕ → ℝ) (poly : ℝ) (x : ℕ)
    (h : readlen ≤ x) :
    pureFactor rr rs q0 readlen cpg baseq model poly x = 1 := by
  unfold pureFactor
  by_cases hN : rr.getD x '?' = 'N' ∨ rs.getD x '?' = 'N'
  · rw [if_pos hN]
  · rw [if_neg hN, if_pos h]

/-- A product of neutral factors is 1. -/
theorem prodFrom_eq_one (n : ℕ) (f : ℕ → ℝ) :
    ∀ fuel x, (∀ y, x ≤ y → y < n → f y = 1) → prodFrom n f fuel x = 1 := by
  intro fuel
  induction fuel with
  | zero => intro x _; rfl
  | succ fuel ih =>
    intro x h
    unfold prodFrom
    by_cases hx : x < n
    · rw [if_pos hx, h x le_rfl hx, ih (x + 1) (fun y hy hyn => h y (by omega) hyn),
        one_mul]
    · rw [if_neg hx]

/-- One loop iteration, characterised against the pure per-position factors:
if the iteration `break`s, the likelihood accumulators and the scoring
quality string are unchanged, the `break` happened at the read end
(`readlen ≤ x+1`), and the position's factors are neutral; if it `continue`s,
`L_D`/`L_M` have been multiplied by exactly `factorD`/`factorM` of the
position (computed over the ORIGINAL qualities `q0`), and the scoring quality
string is unchanged except possibly at position `x` itself. -/
theorem stepScore_spec (cfg : ScoreCfg) (q0 : List Char) (x : ℕ) (st : ScoreState)
    (hlen : st.quals.length = cfg.real_read.length)
    (hagq : st.quals.getD x '?' = q0.getD x '?')
    (hx : x < cfg.real_read.length) :
    ((stepScore cfg x st).2 = true →
      (stepScore cfg x st).1.L_D = st.L_D ∧
      (stepScore cfg x st).1.L_M = st.L_M ∧
      (stepScore cfg x st).1.quals = st.quals ∧
      cfg.readlen ≤ x + 1 ∧ factorD cfg q0 x = 1 ∧ factorM cfg q0 x = 1) ∧
    ((stepScore cfg x st).2 = false →
      (stepScore cfg x st).1.L_D = st.L_D * factorD cfg q0 x ∧
      (stepScore cfg x st).1.L_M = st.L_M * factorM cfg q0 x ∧
      ((stepScore cfg x st).1.quals = st.quals ∨
        ∃ ch, (stepScore cfg x st).1.quals = splice st.quals x ch)) := by
  have hord0 : ordAt st.quals x = ordAt q0 x := by
    unfold ordAt
    rw [hagq]
  by_cases hN : cfg.real_read.getD x '?' = 'N' ∨ cfg.real_ref_seq.getD x '?' = 'N'
  · have hfD : factorD cfg q0 x = 1 := by
      unfold factorD pureFactor
      rw [if_pos hN]
    have hfM : factorM cfg q0 x = 1 := by
      unfold factorM pureFactor
      rw [if_pos hN]
    have hstep : stepScore cfg x st = (st, false) := by
      simp only [stepScore]
      rw [if_pos hN]
    rw [hstep]
    exact ⟨fun h => (nomatch h),
      fun _ => ⟨by rw [hfD, mul_one], by rw [hfM, mul_one], Or.inl rfl⟩⟩
  by_cases hL : cfg.readlen ≤ x
  · have hfD : factorD cfg q0 x = 1 :=
      pureFactor_eq_one_of_readlen _ _ _ _ _ _ _ _ _ hL
    have hfM : factorM cfg q0 x = 1 :=
      pureFactor_eq_one_of_readlen _ _ _ _ _ _ _ _ _ hL
    have hstep : stepScore cfg x st = (st, true) := by
      simp only [stepScore]
      rw [if_neg hN, if_pos hL]
    rw [hstep]
    exact ⟨fun _ => ⟨rfl, rfl, rfl, by omega, hfD, hfM⟩, fun h => (nomatch h)⟩
  -- scoring position: x < readlen
  obtain ⟨hA1, hA2, hA3⟩ :=
    adjAllStep_fields cfg x (cfg.real_read.length - 1 - x) st
  have hmain : stepScore cfg x st =
      (if (ordAt st.quals x : ℤ) - 33 < cfg.baseq then
        belowBranch cfg x (cfg.real_read.length - 1 - x) st.quals.reverse
          (adjAllStep cfg x (cfg.real_read.length - 1 - x) st)
      else if cfg.readlen ≤ x then
        (adjAllStep cfg x (cfg.real_read.length - 1 - x) st, false)
      else if cfg.real_ref_seq.getD x '?' = 'C' then
        scoreC cfg x (adjAllStep cfg x (cfg.real_read.length - 1 - x) st)
      else if cfg.real_ref_seq.getD x '?' = 'G' then
        scoreG cfg x (cfg.real_read.length - 1 - x) st.quals.reverse
          (adjAllStep cfg x (cfg.real_read.length - 1 - x) st)
      else (adjAllStep cfg x (cfg.real_read.length - 1 - x) st, false)) := by
    simp only [stepScore]
    rw [if_neg hN, if_neg hL, hA3]
  rw [hmain]
  by_cases hT : (ordAt st.quals x : ℤ) - 33 < cfg.baseq
  · -- below the base-quality threshold
    have hTq : (ordAt q0 x : ℤ) - 33 < cfg.baseq := by rw [← hord0]; exact hT
    have hfD : factorD cfg q0 x = 1 := by
      unfold factorD pureFactor
      rw [if_neg hN, if_neg hL, if_pos hTq]
    have hfM : factorM cfg q0 x = 1 := by
      unfold factorM pureFactor
      rw [if_neg hN, if_neg hL, if_pos hTq]
    rw [if_pos hT]
    obtain ⟨hB1, hB2, hB3⟩ :=
      belowBranch_fields cfg x (cfg.real_read.length - 1 - x) st.quals.reverse
        (adjAllStep cfg x (cfg.real_read.length - 1 - x) st)
    constructor
    · intro hbrk
      exact ⟨hB1.trans hA1, hB2.trans hA2, hB3.trans hA3,
        belowBranch_break _ _ _ _ _ hbrk, hfD, hfM⟩
    · intro _
      exact ⟨by rw [hB1.trans hA1, hfD, mul_one],
        by rw [hB2.trans hA2, hfM, mul_one], Or.inl (hB3.trans hA3)⟩
  · -- at or above the base-quality threshold: the scoring blocks
    have hTq : ¬((ordAt q0 x : ℤ) - 33 < cfg.baseq) := by rw [← hord0]; exact hT
    rw [if_neg hT, if_neg hL]
    have hpe : P_error_of (adjAllStep cfg x (cfg.real_read.length - 1 - x) st).quals x =
        P_error_of q0 x :=
      P_error_of_congr _ _ _ (by rw [hA3, hagq])
    have hrevq : st.quals.reverse.getD (cfg.real_read.length - 1 - x) '?' =
        q0.getD x '?' := by
      have hx1 : x < st.quals.length := by omega
      have hz : cfg.real_read.length - 1 - x = st.quals.length - 1 - x := by omega
      rw [hz, getD_reverse_last st.quals x hx1, hagq]
    have hpeG : P_error_of st.quals.reverse (cfg.real_read.length - 1 - x) =
        P_error_of q0 x := by
      unfold P_error_of ordAt
      rw [hrevq]
    by_cases hbC : cfg.real_ref_seq.getD x '?' = 'C'
    · rw [if_pos hbC]
      -- the b == 'C' scoring block
      by_cases hc1 : cfg.cpg ∧ cfg.readlen ≤ x + 1
      · have hfD : factorD cfg q0 x = 1 := by
          unfold factorD pureFactor
          rw [if_neg hN, if_neg hL, if_neg hTq, if_pos hbC, if_pos hc1]
        have hfM : factorM cfg q0 x = 1 := by
          unfold factorM pureFactor
          rw [if_neg hN, if_neg hL, if_neg hTq, if_pos hbC, if_pos hc1]
        have hsc : scoreC cfg x (adjAllStep cfg x (cfg.real_read.length - 1 - x) st) =
            (adjAllStep cfg x (cfg.real_read.length - 1 - x) st, true) := by
          unfold scoreC
          rw [if_pos hc1]
        rw [hsc]
        exact ⟨fun _ => ⟨hA1, hA2, hA3, hc1.2, hfD, hfM⟩, fun h => (nomatch h)⟩
      · by_cases hc2 : cfg.cpg ∧ cfg.real_read.getD (x + 1) '?' ≠ 'G'
        · have hfD : factorD cfg q0 x = 1 := by
            unfold factorD pureFactor
            rw [if_neg hN, if_neg hL, if_neg hTq, if_pos hbC, if_neg hc1, if_pos hc2]
          have hfM : factorM cfg q0 x = 1 := by
            unfold factorM pureFactor
            rw [if_neg hN, if_neg hL, if_neg hTq, if_pos hbC, if_neg hc1, if_pos hc2]
          have hsc : scoreC cfg x (adjAllStep cfg x (cfg.real_read.length - 1 - x) st) =
              (adjAllStep cfg x (cfg.real_read.length - 1 - x) st, false) := by
            unfold scoreC
            rw [if_neg hc1, if_pos hc2]
          rw [hsc]
          exact ⟨fun h => (nomatch h),
            fun _ => ⟨by rw [hA1, hfD, mul_one], by rw [hA2, hfM, mul_one], Or.inl hA3⟩⟩
        · by_cases haT : cfg.real_read.getD x '?' = 'T'
          · have hfD : factorD cfg q0 x =
                L_mismatchP (cfg.ancient_model x) (P_error_of q0 x)
                  cfg.polymorphism_ancient := by
              unfold factorD pureFactor
              rw [if_neg hN, if_neg hL, if_neg hTq, if_pos hbC, if_neg hc1, if_neg hc2,
                if_pos haT]
            have hfM : factorM cfg q0 x =
                L_mismatchP (cfg.modern_model x) (P_error_of q0 x)
                  cfg.polymorphism_contamination := by
              unfold factorM pureFactor
              rw [if_neg hN, if_neg hL, if_neg hTq, if_pos hbC, if_neg hc1, if_neg hc2,
                if_pos haT]
            by_cases hadj : cfg.adjustbaseq = true
            · have hsc : scoreC cfg x (adjAllStep cfg x (cfg.real_read.length - 1 - x) st) =
                  (⟨st.L_D * factorD cfg q0 x, st.L_M * factorM cfg q0 x,
                    splice st.quals x
                      (newqualAt cfg.ancient_model
                        (adjAllStep cfg x (cfg.real_read.length - 1 - x) st).quals x),
                    (adjAllStep cfg x (cfg.real_read.length - 1 - x) st).newquals⟩,
                    false) := by
                unfold scoreC
                rw [if_neg hc1, if_neg hc2, if_pos haT, if_pos hadj]
                rw [hfD, hfM, hpe, hA1, hA2, hA3]
              rw [hsc]
              exact ⟨fun h => (nomatch h),
                fun _ => ⟨rfl, rfl, Or.inr ⟨_, rfl⟩⟩⟩
            · have hsc : scoreC cfg x (adjAllStep cfg x (cfg.real_read.length - 1 - x) st) =
                  (⟨st.L_D * factorD cfg q0 x, st.L_M * factorM cfg q0 x,
                    st.quals,
                    (adjAllStep cfg x (cfg.real_read.length - 1 - x) st).newquals⟩,
                    false) := by
                unfold scoreC
                rw [if_neg hc1, if_neg hc2, if_pos haT, if_neg hadj]
                rw [hfD, hfM, hpe, hA1, hA2, hA3]
              rw [hsc]
              exact ⟨fun h => (nomatch h), fun _ => ⟨rfl, rfl, Or.inl rfl⟩⟩
          · by_cases haC : cfg.real_read.getD x '?' = 'C'
            · have hfD : factorD cfg q0 x =
                  L_matchP (cfg.ancient_model x) (P_error_of q0 x)
                    cfg.polymorphism_ancient := by
                unfold factorD pureFactor
                rw [if_neg hN, if_neg hL, if_neg hTq, if_pos hbC, if_neg hc1, if_neg hc2,
                  if_neg haT, if_pos haC]
              have hfM : factorM cfg q0 x =
                  L_matchP (cfg.modern_model x) (P_error_of q0 x)
                    cfg.polymorphism_contamination := by
                unfold factorM pureFactor
                rw [if_neg hN, if_neg hL, if_neg hTq, if_pos hbC, if_neg hc1, if_neg hc2,
                  if_neg haT, if_pos haC]
              have hsc : scoreC cfg x (adjAllStep cfg x (cfg.real_read.length - 1 - x) st) =
                  (⟨st.L_D * factorD cfg q0 x, st.L_M * factorM cfg q0 x,
                    st.quals,
                    (adjAllStep cfg x (cfg.real_read.length - 1 - x) st).newquals⟩,
                    false) := by
                unfold scoreC
                rw [if_neg hc1, if_neg hc2, if_neg haT, if_pos haC]
                rw [hfD, hfM, hpe, hA1, hA2, hA3]
              rw [hsc]
              exact ⟨fun h => (nomatch h), fun _ => ⟨rfl, rfl, Or.inl rfl⟩⟩
            · have hfD : factorD cfg q0 x = 1 := by
                unfold factorD pureFactor
                rw [if_neg hN, if_neg hL, if_neg hTq, if_pos hbC, if_neg hc1, if_neg hc2,
                  if_neg haT, if_neg haC]
              have hfM : factorM cfg q0 x = 1 := by
                unfold factorM pureFactor
                rw [if_neg hN, if_neg hL, if_neg hTq, if_pos hbC, if_neg hc1, if_neg hc2,
                  if_neg haT, if_neg haC]
              have hsc : scoreC cfg x (adjAllStep cfg x (cfg.real_read.length - 1 - x) st) =
                  (adjAllStep cfg x (cfg.real_read.length - 1 - x) st, false) := by
                unfold scoreC
                rw [if_neg hc1, if_neg hc2, if_neg haT, if_neg haC]
              rw [hsc]
              exact ⟨fun h => (nomatch h),
                fun _ => ⟨by rw [hA1, hfD, mul_one], by rw [hA2, hfM, mul_one],
                  Or.inl hA3⟩⟩
    · rw [if_neg hbC]
      by_cases hbG : cfg.real_ref_seq.getD x '?' = 'G'
      · rw [if_pos hbG]
        -- the b == 'G' scoring block
        by_cases hc1 : cfg.cpg ∧ cfg.readlen ≤ x + 1
        · have hfD : factorD cfg q0 x = 1 := by
            unfold factorD pureFactor
            rw [if_neg hN, if_neg hL, if_neg hTq, if_neg hbC, if_pos hbG, if_pos hc1]
          have hfM : factorM cfg q0 x = 1 := by
            unfold factorM pureFactor
            rw [if_neg hN, if_neg hL, if_neg hTq, if_neg hbC, if_pos hbG, if_pos hc1]
          have hsc : scoreG cfg x (cfg.real_read.length - 1 - x) st.quals.reverse
              (adjAllStep cfg x (cfg.real_read.length - 1 - x) st) =
              (adjAllStep cfg x (cfg.real_read.length - 1 - x) st, true) := by
            unfold scoreG
            rw [if_pos hc1]
          rw [hsc]
          exact ⟨fun _ => ⟨hA1, hA2, hA3, hc1.2, hfD, hfM⟩, fun h => (nomatch h)⟩
        · by_cases hc2 : cfg.cpg ∧ cfg.real_read.reverse.getD (x + 1) '?' ≠ 'C'
          · have hfD : factorD cfg q0 x = 1 := by
              unfold factorD pureFactor
              rw [if_neg hN, if_neg hL, if_neg hTq, if_neg hbC, if_pos hbG, if_neg hc1,
                if_pos hc2]
            have hfM : factorM cfg q0 x = 1 := by
              unfold factorM pureFactor
              rw [if_neg hN, if_neg hL, if_neg hTq, if_neg hbC, if_pos hbG, if_neg hc1,
                if_pos hc2]
            have hsc : scoreG cfg x (cfg.real_read.length - 1 - x) st.quals.reverse
                (adjAllStep cfg x (cfg.real_read.length - 1 - x) st) =
                (adjAllStep cfg x (cfg.real_read.length - 1 - x) st, false) := by
              unfold scoreG
              rw [if_neg hc1, if_pos hc2]
            rw [hsc]
            exact ⟨fun h => (nomatch h),
              fun _ => ⟨by rw [hA1, hfD, mul_one], by rw [hA2, hfM, mul_one],
                Or.inl hA3⟩⟩
          · by_cases haA : cfg.real_read.getD x '?' = 'A'
            · have hfD : factorD cfg q0 x =
                  L_mismatchP (cfg.ancient_model (cfg.real_read.length - 1 - x))
                    (P_error_of q0 x) cfg.polymorphism_ancient := by
                unfold factorD pureFactor
                rw [if_neg hN, if_neg hL, if_neg hTq, if_neg hbC, if_pos hbG, if_neg hc1,
                  if_neg hc2, if_pos haA]
              have hfM : factorM cfg q0 x =
                  L_mismatchP (cfg.modern_model (cfg.real_read.length - 1 - x))
                    (P_error_of q0 x) cfg.polymorphism_contamination := by
                unfold factorM pureFactor
                rw [if_neg hN, if_neg hL, if_neg hTq, if_neg hbC, if_pos hbG, if_neg hc1,
                  if_neg hc2, if_pos haA]
              by_cases hadj : cfg.adjustbaseq = true
              · have hsc : scoreG cfg x (cfg.real_read.length - 1 - x) st.quals.reverse
                    (adjAllStep cfg x (cfg.real_read.length - 1 - x) st) =
                    (⟨st.L_D * factorD cfg q0 x, st.L_M * factorM cfg q0 x,
                      st.quals,
                      splice st.quals x
                        (newqualAt cfg.ancient_model st.quals.reverse
                          (cfg.real_read.length - 1 - x))⟩,
                      false) := by
                  unfold scoreG
                  rw [if_neg hc1, if_neg hc2, if_pos haA, if_pos hadj]
                  rw [hfD, hfM, hpeG, hA1, hA2, hA3]
                rw [hsc]
                exact ⟨fun h => (nomatch h), fun _ => ⟨rfl, rfl, Or.inl rfl⟩⟩
              · have hsc : scoreG cfg x (cfg.real_read.length - 1 - x) st.quals.reverse
                    (adjAllStep cfg x (cfg.real_read.length - 1 - x) st) =
                    (⟨st.L_D * factorD cfg q0 x, st.L_M * factorM cfg q0 x,
                      st.quals,
                      (adjAllStep cfg x (cfg.real_read.length - 1 - x) st).newquals⟩,
                      false) := by
                  unfold scoreG
                  rw [if_neg hc1, if_neg hc2, if_pos haA, if_neg hadj]
                  rw [hfD, hfM, hpeG, hA1, hA2, hA3]
                rw [hsc]
                exact ⟨fun h => (nomatch h), fun _ => ⟨rfl, rfl, Or.inl rfl⟩⟩
            · by_cases haG : cfg.real_read.getD x '?' = 'G'
              · have hfD : factorD cfg q0 x =
                    L_matchP (cfg.ancient_model (cfg.real_read.length - 1 - x))
                      (P_error_of q0 x) cfg.polymorphism_ancient := by
                  unfold factorD pureFactor
                  rw [if_neg hN, if_neg hL, if_neg hTq, if_neg hbC, if_pos hbG,
                    if_neg hc1, if_neg hc2, if_neg haA, if_pos haG]
                have hfM : factorM cfg q0 x =
                    L_matchP (cfg.modern_model (cfg.real_read.length - 1 - x))
                      (P_error_of q0 x) cfg.polymorphism_contamination := by
                  unfold factorM pureFactor
                  rw [if_neg hN, if_neg hL, if_neg hTq, if_neg hbC, if_pos hbG,
                    if_neg hc1, if_neg hc2, if_neg haA, if_pos haG]
                have hsc : scoreG cfg x (cfg.real_read.length - 1 - x) st.quals.reverse
                    (adjAllStep cfg x (cfg.real_read.length - 1 - x) st) =
                    (⟨st.L_D * factorD cfg q0 x, st.L_M * factorM cfg q0 x,
                      st.quals,
                      (adjAllStep cfg x (cfg.real_read.length - 1 - x) st).newquals⟩,
                      false) := by
                  unfold scoreG
                  rw [if_neg hc1, if_neg hc2, if_neg haA, if_pos haG]
                  rw [hfD, hfM, hpeG, hA1, hA2, hA3]
                rw [hsc]
                exact ⟨fun h => (nomatch h), fun _ => ⟨rfl, rfl, Or.inl rfl⟩⟩
              · have hfD : factorD cfg q0 x = 1 := by
                  unfold factorD pureFactor
                  rw [if_neg hN, if_neg hL, if_neg hTq, if_neg hbC, if_pos hbG,
                    if_neg hc1, if_neg hc2, if_neg haA, if_neg haG]
                have hfM : factorM cfg q0 x = 1 := by
                  unfold factorM pureFactor
                  rw [if_neg hN, if_neg hL, if_neg hTq, if_neg hbC, if_pos hbG,
                    if_neg hc1, if_neg hc2, if_neg haA, if_neg haG]
                have hsc : scoreG cfg x (cfg.real_read.length - 1 - x) st.quals.reverse
                    (adjAllStep cfg x (cfg.real_read.length - 1 - x) st) =
                    (adjAllStep cfg x (cfg.real_read.length - 1 - x) st, false) := by
                  unfold scoreG
                  rw [if_neg hc1, if_neg hc2, if_neg haA, if_neg haG]
                rw [hsc]
                exact ⟨fun h => (nomatch h),
                  fun _ => ⟨by rw [hA1, hfD, mul_one], by rw [hA2, hfM, mul_one],
                    Or.inl hA3⟩⟩
      · rw [if_neg hbG]
        have hfD : factorD cfg q0 x = 1 := by
          unfold factorD pureFactor
          rw [if_neg hN, if_neg hL, if_neg hTq, if_neg hbC, if_neg hbG]
        have hfM : factorM cfg q0 x = 1 := by
          unfold factorM pureFactor
          rw [if_neg hN, if_neg hL, if_neg hTq, if_neg hbC, if_neg hbG]
        exact ⟨fun h => (nomatch h),
          fun _ => ⟨by rw [hA1, hfD, mul_one], by rw [hA2, hfM, mul_one], Or.inl hA3⟩⟩

/-- The scoring loop's likelihood accumulators are plain products of the pure
per-position factors computed over the ORIGINAL quality string `q0`: although
the loop may rewrite `quals` in place at a C→T position (line 561), every
factor is taken before that position's rewrite and depends only on its own
position's quality, so the in-place writes never reach any factor. -/
theorem goScore_eq_prod (cfg : ScoreCfg) (q0 : List Char) :
    ∀ fuel x st,
      st.quals.length = cfg.real_read.length →
      (∀ j, x ≤ j → st.quals.getD j '?' = q0.getD j '?') →
      (goScore cfg fuel x st).L_D =
        st.L_D * prodFrom (min cfg.real_read.length cfg.real_ref_seq.length)
          (factorD cfg q0) fuel x ∧
      (goScore cfg fuel x st).L_M =
        st.L_M * prodFrom (min cfg.real_read.length cfg.real_ref_seq.length)
          (factorM cfg q0) fuel x := by
  intro fuel
  induction fuel with
  | zero =>
    intro x st _ _
    constructor <;> simp [goScore, prodFrom]
  | succ fuel ih =>
    intro x st hlen hagree
    by_cases hx : x < min cfg.real_read.length cfg.real_ref_seq.length
    · have hx' : x < cfg.real_read.length := lt_of_lt_of_le hx (min_le_left _ _)
      have hspec := stepScore_spec cfg q0 x st hlen (hagree x le_rfl) hx'
      rcases hb : stepScore cfg x st with ⟨st1, brk⟩
      rw [hb] at hspec
      cases brk with
      | true =>
        obtain ⟨h1, h2, _, hrb, hfD1, hfM1⟩ := hspec.1 rfl
        have hgo : goScore cfg (fuel + 1) x st = st1 := by
          simp only [goScore]
          rw [if_pos hx, hb]
        have hprodD : prodFrom (min cfg.real_read.length cfg.real_ref_seq.length)
            (factorD cfg q0) fuel (x + 1) = 1 :=
          prodFrom_eq_one _ _ fuel (x + 1)
            (fun y hy _ => pureFactor_eq_one_of_readlen _ _ _ _ _ _ _ _ _ (by omega))
        have hprodM : prodFrom (min cfg.real_read.length cfg.real_ref_seq.length)
            (factorM cfg q0) fuel (x + 1) = 1 :=
          prodFrom_eq_one _ _ fuel (x + 1)
            (fun y hy _ => pureFactor_eq_one_of_readlen _ _ _ _ _ _ _ _ _ (by omega))
        rw [hgo]
        constructor
        · simp only [prodFrom]
          rw [if_pos hx, h1, hfD1, hprodD, one_mul, mul_one]
        · simp only [prodFrom]
          rw [if_pos hx, h2, hfM1, hprodM, one_mul, mul_one]
      | false =>
        obtain ⟨h1, h2, h3⟩ := hspec.2 rfl
        have hgo : goScore cfg (fuel + 1) x st =
            goScore cfg fuel (x + 1) st1 := by
          simp only [goScore]
          rw [if_pos hx, hb]
        have hxq : x < st.quals.length := by omega
        have hlen1 : st1.quals.length = cfg.real_read.length := by
          rcases h3 with h3 | ⟨ch, h3⟩
          · rw [h3]
            exact hlen
          · rw [h3, splice_length _ _ _ hxq]
            exact hlen
        have hagree1 : ∀ j, x + 1 ≤ j → st1.quals.getD j '?' = q0.getD j '?' := by
          intro j hj
          rcases h3 with h3 | ⟨ch, h3⟩
          · rw [h3]
            exact hagree j (by omega)
          · rw [h3, splice_getD_of_lt _ _ _ _ (by omega) hxq]
            exact hagree j (by omega)
        obtain ⟨ihD, ihM⟩ := ih (x + 1) st1 hlen1 hagree1
        rw [hgo]
        constructor
        · rw [ihD, h1]
          simp only [prodFrom]
          rw [if_pos hx]
          ring
        · rw [ihM, h2]
          simp only [prodFrom]
          rw [if_pos hx]
          ring
    · constructor <;> simp [goScore, prodFrom, hx]

/-- A position that passes none of the scoring filters contributes the
neutral factor. -/
theorem pureFactor_eq_one_of_not_scorable (rr rs q0 : List Char) (readlen : ℕ)
    (cpg : Bool) (baseq : ℤ) (model : ℕ → ℝ) (poly : ℝ) (x : ℕ)
    (h : ¬ scorableCG rr rs q0 readlen cpg baseq x) :
    pureFactor rr rs q0 readlen cpg baseq model poly x = 1 := by
  unfold pureFactor
  by_cases hN : rr.getD x '?' = 'N' ∨ rs.getD x '?' = 'N'
  · rw [if_pos hN]
  by_cases hL : readlen ≤ x
  · rw [if_neg hN, if_pos hL]
  by_cases hT : (ordAt q0 x : ℤ) - 33 < baseq
  · rw [if_neg hN, if_neg hL, if_pos hT]
  rw [if_neg hN, if_neg hL, if_neg hT]
  have hN1 : rr.getD x '?' ≠ 'N' := fun hh => hN (Or.inl hh)
  have hN2 : rs.getD x '?' ≠ 'N' := fun hh => hN (Or.inr hh)
  by_cases hbC : rs.getD x '?' = 'C'
  · rw [if_pos hbC]
    have hcpg : ¬(cpg → x + 1 < readlen ∧ rr.getD (x + 1) '?' = 'G') := by
      intro hc
      exact h ⟨⟨hN1, hN2⟩, not_le.mp hL, not_lt.mp hT, Or.inl ⟨hbC, hc⟩⟩
    push_neg at hcpg
    obtain ⟨hcpgT, hctx⟩ := hcpg
    by_cases hc1 : readlen ≤ x + 1
    · rw [if_pos ⟨hcpgT, hc1⟩]
    · have hctx2 : rr.getD (x + 1) '?' ≠ 'G' := fun hgg => hctx (by omega) hgg
      rw [if_neg (fun hh => hc1 hh.2), if_pos ⟨hcpgT, hctx2⟩]
  · by_cases hbG : rs.getD x '?' = 'G'
    · rw [if_neg hbC, if_pos hbG]
      have hcpg : ¬(cpg → x + 1 < readlen ∧ rr.reverse.getD (x + 1) '?' = 'C') := by
        intro hc
        exact h ⟨⟨hN1, hN2⟩, not_le.mp hL, not_lt.mp hT, Or.inr ⟨hbG, hc⟩⟩
      push_neg at hcpg
      obtain ⟨hcpgT, hctx⟩ := hcpg
      by_cases hc1 : readlen ≤ x + 1
      · rw [if_pos ⟨hcpgT, hc1⟩]
      · have hctx2 : rr.reverse.getD (x + 1) '?' ≠ 'C' :=
          fun hgg => hctx (by omega) hgg
        rw [if_neg (fun hh => hc1 hh.2), if_pos ⟨hcpgT, hctx2⟩]
    · rw [if_neg hbC, if_neg hbG]

/-- C5 — for a record in which no C or G reference position passes the
scoring filters (quality, N, CpG), the aggregated likelihoods satisfy
`L_D = L_M = 1.0` and the PMD score `ln(L_D/L_M)` is `0.0`. -/
theorem c5_no_scorable_position_gives_unit_likelihoods (cfg : ScoreCfg)
    (q0 : List Char) (hq0 : q0.length = cfg.real_read.length)
    (hns : ∀ x, x < min cfg.real_read.length cfg.real_ref_seq.length →
      ¬ scorableCG cfg.real_read cfg.real_ref_seq q0 cfg.readlen cfg.cpg
        cfg.baseq x) :
    (scoreRun cfg q0).L_D = 1 ∧ (scoreRun cfg q0).L_M = 1 ∧
      PMDscore (scoreRun cfg q0) = 0 := by
  obtain ⟨hD0, hM0⟩ := goScore_eq_prod cfg q0
    (min cfg.real_read.length cfg.real_ref_seq.length) 0 ⟨1, 1, q0, q0⟩ hq0
    (fun j _ => rfl)
  have hpD : prodFrom (min cfg.real_read.length cfg.real_ref_seq.length)
      (factorD cfg q0) (min cfg.real_read.length cfg.real_ref_seq.length) 0 = 1 :=
    prodFrom_eq_one _ _ _ _
      (fun y _ hyn => pureFactor_eq_one_of_not_scorable _ _ _ _ _ _ _ _ _ (hns y hyn))
  have hpM : prodFrom (min cfg.real_read.length cfg.real_ref_seq.length)
      (factorM cfg q0) (min cfg.real_read.length cfg.real_ref_seq.length) 0 = 1 :=
    prodFrom_eq_one _ _ _ _
      (fun y _ hyn => pureFactor_eq_one_of_not_scorable _ _ _ _ _ _ _ _ _ (hns y hyn))
  have hD : (scoreRun cfg q0).L_D = 1 := by
    unfold scoreRun
    rw [hD0, hpD, mul_one]
  have hM : (scoreRun cfg q0).L_M = 1 := by
    unfold scoreRun
    rw [hM0, hpM, mul_one]
  refine ⟨hD, hM, ?_⟩
  unfold PMDscore
  rw [hD, hM]
  simp

/-- C5 witness: the record `read = AA`, `ref = AA` (no C or G in the
reference) scored with quality string `II`. -/
theorem c5_no_scorable_position_witness :
    ((['I', 'I'] : List Char).length = c5cfg.real_read.length) ∧
    (∀ x, x < min c5cfg.real_read.length c5cfg.real_ref_seq.length →
      ¬ scorableCG c5cfg.real_read c5cfg.real_ref_seq ['I', 'I'] c5cfg.readlen
        c5cfg.cpg c5cfg.baseq x) ∧
    ((scoreRun c5cfg ['I', 'I']).L_D = 1 ∧ (scoreRun c5cfg ['I', 'I']).L_M = 1 ∧
      PMDscore (scoreRun c5cfg ['I', 'I']) = 0) :=
  ⟨rfl, by decide,
    c5_no_scorable_position_gives_unit_likelihoods c5cfg ['I', 'I'] rfl (by decide)⟩

/-- C4 amended — the PMD score is unchanged by `--adjustbaseq`: although the
C→T branch writes the adjusted quality into the scoring string `quals` in
place (line 561), each position's factors are computed before that position's
write and read only their own position, so `L_D`, `L_M` and the score are
identical with rescaling on and off. -/
theorem c4_score_invariant_under_rescaling (cfg : ScoreCfg) (q0 : List Char)
    (hq0 : q0.length = cfg.real_read.length) :
    (scoreRun { cfg with adjustbaseq := true } q0).L_D =
      (scoreRun { cfg with adjustbaseq := false } q0).L_D ∧
    (scoreRun { cfg with adjustbaseq := true } q0).L_M =
      (scoreRun { cfg with adjustbaseq := false } q0).L_M ∧
    PMDscore (scoreRun { cfg with adjustbaseq := true } q0) =
      PMDscore (scoreRun { cfg with adjustbaseq := false } q0) := by
  have h1 := goScore_eq_prod { cfg with adjustbaseq := true } q0
    (min cfg.real_read.length cfg.real_ref_seq.length) 0 ⟨1, 1, q0, q0⟩ hq0
    (fun j _ => rfl)
  have h2 := goScore_eq_prod { cfg with adjustbaseq := false } q0
    (min cfg.real_read.length cfg.real_ref_seq.length) 0 ⟨1, 1, q0, q0⟩ hq0
    (fun j _ => rfl)
  have eD : (scoreRun { cfg with adjustbaseq := true } q0).L_D =
      (scoreRun { cfg with adjustbaseq := false } q0).L_D := h1.1.trans h2.1.symm
  have eM : (scoreRun { cfg with adjustbaseq := true } q0).L_M =
      (scoreRun { cfg with adjustbaseq := false } q0).L_M := h1.2.trans h2.2.symm
  refine ⟨eD, eM, ?_⟩
  unfold PMDscore
  rw [eD, eM]

/-- C4 witness: score invariance at the concrete one-base C→T record. -/
theorem c4_score_invariant_witness :
    ((['Z'] : List Char).length = c4cfg.real_read.length) ∧
    ((scoreRun { c4cfg with adjustbaseq := true } ['Z']).L_D =
      (scoreRun { c4cfg with adjustbaseq := false } ['Z']).L_D ∧
    (scoreRun { c4cfg with adjustbaseq := true } ['Z']).L_M =
      (scoreRun { c4cfg with adjustbaseq := false } ['Z']).L_M ∧
    PMDscore (scoreRun { c4cfg with adjustbaseq := true } ['Z']) =
      PMDscore (scoreRun { c4cfg with adjustbaseq := false } ['Z'])) :=
  ⟨rfl, c4_score_invariant_under_rescaling c4cfg ['Z'] rfl⟩

/-- C4 counterexample — the claim's mechanism clause is false on the code:
with `--adjustbaseq` on, the C→T scoring branch writes the adjusted quality
into the scoring quality sequence `quals` itself (line 561), not only into
the output copy `newquals`.  On the one-base record read `T` / ref `C` with
quality `Z`, after the loop the quality string carried for scoring no longer
equals the original `"Z"`. -/
theorem c4_scoring_quals_mutated_counterexample :
    (scoreRun c4cfg ['Z']).quals ≠ ['Z'] := by
  have hrun : (scoreRun c4cfg ['Z']).quals =
      [newqualAt c4cfg.ancient_model ['Z'] 0] := rfl
  rw [hrun]
  intro hcontra
  have hch : newqualAt c4cfg.ancient_model ['Z'] 0 = 'Z' := by
    injection hcontra with h1 h2
  -- the concrete damage and error probabilities
  have hDval : c4cfg.ancient_model 0 = 0.31 := by
    show geometric 0.3 (0 + 1) 0.01 = 0.31
    unfold geometric
    norm_num
  have hordZ : ordAt ['Z'] 0 = 90 := rfl
  have hEval : P_error_of ['Z'] 0 = (10 : ℝ) ^ (-(57 : ℝ) / 10) / 3 := by
    unfold P_error_of phred2prob
    rw [hordZ]
    norm_num
  have hE0 : 0 < (10 : ℝ) ^ (-(57 : ℝ) / 10) / 3 := by
    have := Real.rpow_pos_of_pos (by norm_num : (0 : ℝ) < 10) (-(57 : ℝ) / 10)
    linarith
  have hE1 : (10 : ℝ) ^ (-(57 : ℝ) / 10) / 3 < 1 := by
    have := Real.rpow_lt_one_of_one_lt_of_neg (by norm_num : (1 : ℝ) < 10)
      (by norm_num : -(57 : ℝ) / 10 < 0)
    linarith
  -- the combined probability p = 0.31 + 0.69·E lies in (0.31, 1)
  have hpval : NewbaseqP 0.31 ((10 : ℝ) ^ (-(57 : ℝ) / 10) / 3) =
      0.31 + 0.69 * ((10 : ℝ) ^ (-(57 : ℝ) / 10) / 3) := by
    unfold NewbaseqP
    ring
  have hplo : 0.31 < NewbaseqP 0.31 ((10 : ℝ) ^ (-(57 : ℝ) / 10) / 3) := by
    rw [hpval]
    linarith
  have hphi : NewbaseqP 0.31 ((10 : ℝ) ^ (-(57 : ℝ) / 10) / 3) < 1 := by
    rw [hpval]
    linarith
  have hppos : 0 < NewbaseqP 0.31 ((10 : ℝ) ^ (-(57 : ℝ) / 10) / 3) := by
    linarith
  -- hence 10^(-5.7) < p, so 0 ≤ prob2phred p < 57
  have hten : (10 : ℝ) ^ (-(57 : ℝ) / 10) <
      NewbaseqP 0.31 ((10 : ℝ) ^ (-(57 : ℝ) / 10) / 3) := by
    have h1 : (10 : ℝ) ^ (-(57 : ℝ) / 10) < (10 : ℝ) ^ (-1 : ℝ) := by
      rw [Real.rpow_lt_rpow_left_iff (by norm_num : (1 : ℝ) < 10)]
      norm_num
    rw [Real.rpow_neg_one] at h1
    have h2 : (10 : ℝ)⁻¹ = 1 / 10 := by norm_num
    rw [h2] at h1
    linarith
  have hy0 : 0 ≤ prob2phred (NewbaseqP 0.31 ((10 : ℝ) ^ (-(57 : ℝ) / 10) / 3)) := by
    unfold prob2phred
    have := Real.logb_nonpos (by norm_num : (1 : ℝ) < 10) hppos.le hphi.le
    linarith
  have hy57 : prob2phred (NewbaseqP 0.31 ((10 : ℝ) ^ (-(57 : ℝ) / 10) / 3)) < 57 := by
    unfold prob2phred
    have := (Real.lt_logb_iff_rpow_lt (by norm_num : (1 : ℝ) < 10) hppos).mpr hten
    linarith
  have hpy : pyint (prob2phred (NewbaseqP 0.31 ((10 : ℝ) ^ (-(57 : ℝ) / 10) / 3))) =
      ⌊prob2phred (NewbaseqP 0.31 ((10 : ℝ) ^ (-(57 : ℝ) / 10) / 3))⌋ := by
    unfold pyint
    rw [if_pos hy0]
  have hfl0 : 0 ≤ ⌊prob2phred (NewbaseqP 0.31 ((10 : ℝ) ^ (-(57 : ℝ) / 10) / 3))⌋ :=
    Int.floor_nonneg.mpr hy0
  have hfl57 : ⌊prob2phred (NewbaseqP 0.31 ((10 : ℝ) ^ (-(57 : ℝ) / 10) / 3))⌋ < 57 := by
    rw [Int.floor_lt]
    exact_mod_cast hy57
  -- the adjusted character therefore has code in [33, 89], so it is not 'Z'
  have hkey : newqualAt c4cfg.ancient_model ['Z'] 0 =
      Char.ofNat ((⌊prob2phred (NewbaseqP 0.31 ((10 : ℝ) ^ (-(57 : ℝ) / 10) / 3))⌋ +
        33).toNat) := by
    unfold newqualAt chrAdd33
    rw [hDval, hEval, hpy]
  rw [hkey] at hch
  have hm1 : 33 ≤ (⌊prob2phred (NewbaseqP 0.31 ((10 : ℝ) ^ (-(57 : ℝ) / 10) / 3))⌋ +
      33).toNat := by omega
  have hm2 : (⌊prob2phred (NewbaseqP 0.31 ((10 : ℝ) ^ (-(57 : ℝ) / 10) / 3))⌋ +
      33).toNat ≤ 89 := by omega
  revert hch
  revert hm1 hm2
  generalize (⌊prob2phred (NewbaseqP 0.31 ((10 : ℝ) ^ (-(57 : ℝ) / 10) / 3))⌋ +
      33).toNat = m
  intro hm1 hm2 hch
  revert hch
  interval_cases m <;> decide

end PMDtools
